import Mathlib

/-!
Verification development for the `vienna` Python package, a thin wrapper
around the ViennaRNA folding engine.

The wrapped engine (the `RNA` native binding and the `RNAinverse`
command-line executable) is external to the repository; we model it as an
oracle record `Engine` whose fields stand for the engine operations the
wrapper invokes.  The wrapper functions `fold`, `cofold` and `inverse_fold`
are shallowly embedded as pure Lean functions of that oracle, translated
line by line from `src/vienna/vienna.py`.

Modelling conventions:
* Python strings are `List Char` (Python strings are sequences of code
  points, and the wrapper only slices, splits and compares them).
* Python floats are `ℚ`: every claim under study is about control flow and
  order comparisons, never about rounding, so an exact numeric type is a
  faithful shallow embedding.
* Python exceptions become an `Except ViennaError` result.  The spec's
  error taxonomy maps onto the code's exceptions as follows:
  `InvalidInput` is the code's `ValueError` raised on bad caller input,
  `EngineNotFound` is the `RuntimeError` raised when `shutil.which`
  fails, and `EngineExecutionFailed` is the `RuntimeError` raised when the
  subprocess exits non-zero.
-/

namespace Vienna

/-- Error taxonomy of the wrapper, following the spec's names for the
exceptions actually raised in `vienna.py`. -/
inductive ViennaError where
  | invalidInput (msg : String)
  | engineNotFound (msg : String)
  | engineFailed (msg : String)
  deriving DecidableEq, Repr

/-- Results from calling RNAfold (`FoldResults` dataclass).  `bp_probs`
holds the `[i+1, j+1, prob]` triples the Python code appends, with the two
1-indexed coordinates as `Nat` and the probability as `ℚ`. -/
structure FoldResults where
  dot_bracket : List Char
  mfe : ℚ
  ens_defect : ℚ
  bp_probs : List (Nat × Nat × ℚ)
  deriving DecidableEq, Repr

/-- One (sequence, score) pair of an inverse-folding result
(`InverseResults.SeqScore` dataclass). -/
structure SeqScore where
  seq : List Char
  score : ℚ
  deriving DecidableEq, Repr

/-- Results from calling RNAinverse (`InverseResults` class): the zipped
list of sequences and scores built in its `__init__`. -/
structure InverseResults where
  seq_scores : List SeqScore
  deriving DecidableEq, Repr

/-- Equality of wrapper outcomes is decidable, so concrete runs can be
checked by evaluation. -/
instance {ε α : Type} [DecidableEq ε] [DecidableEq α] :
    DecidableEq (Except ε α) := fun x y =>
  match x, y with
  | .ok a, .ok b =>
    decidable_of_iff (a = b) ⟨fun h => by rw [h], fun h => Except.ok.inj h⟩
  | .error a, .error b =>
    decidable_of_iff (a = b) ⟨fun h => by rw [h], fun h => Except.error.inj h⟩
  | .ok _, .error _ => isFalse fun h => Except.noConfusion h
  | .error _, .ok _ => isFalse fun h => Except.noConfusion h

/-- Oracle for the external folding engine.  `mfe s` is the
(structure, energy) pair returned by `RNA.fold_compound(s, md).mfe()`
under the fixed model details of `_get_model_details`; `mean_bp_distance`
is `fc.mean_bp_distance()` after `fc.pf()`, with `none` standing for the
`AttributeError`/`TypeError` case the code catches; `bpp s i j` is the
0-indexed base-pair probability matrix entry `fc.bpp()[i][j]`;
`rnainverse_available` is whether `shutil.which("RNAinverse")` succeeds;
and `run_rnainverse secstruct constraint n_sol` is the RNAinverse
subprocess call, returning captured stdout on success and captured stderr
text on a non-zero exit. -/
structure Engine where
  mfe : List Char → List Char × ℚ
  mean_bp_distance : List Char → Option ℚ
  bpp : List Char → Nat → Nat → ℚ
  rnainverse_available : Bool
  run_rnainverse : List Char → List Char → Nat → Except String (List Char)

/-- Embedding of `vienna.fold`.  Mirrors the source: reject the empty
sequence, compute the MFE structure and energy, take the ensemble
diversity with a `0.0` fallback, and when `bp_probs` is requested walk the
upper triangle `i < j` of the probability matrix, keeping strictly
positive entries as 1-indexed triples. -/
def fold (e : Engine) (seq : List Char) (bp_probs : Bool) :
    Except ViennaError FoldResults :=
  if seq.length = 0 then
    .error (.invalidInput "Must supply a sequence longer than 0")
  else
    let mfe_pair := e.mfe seq
    let ensemble_diversity := (e.mean_bp_distance seq).getD 0
    let bp_probs_list :=
      if bp_probs then
        (List.range seq.length).flatMap fun i =>
          (List.range' (i + 1) (seq.length - (i + 1))).filterMap fun j =>
            if 0 < e.bpp seq i j then some (i + 1, j + 1, e.bpp seq i j)
            else none
      else []
    .ok ⟨mfe_pair.1, mfe_pair.2, ensemble_diversity, bp_probs_list⟩

/-- Embedding of `vienna.cofold`.  Mirrors the source: reject the empty
sequence, reject a sequence with no `'&'`, split at the first `'&'`
(`seq.split("&", 1)`), fold the full separator-carrying sequence, and
re-insert `'&'` into the raw structure at index `len(seq1)`. -/
def cofold (e : Engine) (seq : List Char) : Except ViennaError FoldResults :=
  if seq.length = 0 then
    .error (.invalidInput "Must supply a sequence longer than 0")
  else if '&' ∉ seq then
    .error (.invalidInput "Cofold requires sequences separated by '&'")
  else
    let seq1 := seq.takeWhile (fun c => c ≠ '&')
    let mfe_pair := e.mfe seq
    let struct :=
      mfe_pair.1.take seq1.length ++ '&' :: mfe_pair.1.drop seq1.length
    let ensemble_diversity := (e.mean_bp_distance seq).getD 0
    .ok ⟨struct, mfe_pair.2, ensemble_diversity, []⟩

/-- Python `str` whitespace test over the ASCII range, as used by
`str.strip()` and `str.split()` with no arguments. -/
def pyIsSpace (c : Char) : Bool :=
  c = ' ' || c = '\t' || c = '\n' || c = '\r' || c = '\x0b' || c = '\x0c'

/-- Python `line.strip()`: drop leading and trailing whitespace. -/
def pyStrip (l : List Char) : List Char :=
  ((l.dropWhile pyIsSpace).reverse.dropWhile pyIsSpace).reverse

/-- Worker for `pySplit`, carrying the (reversed) current token. -/
def pySplitAux : List Char → List Char → List (List Char)
  | [], acc => if acc.isEmpty then [] else [acc.reverse]
  | c :: cs, acc =>
    if pyIsSpace c then
      if acc.isEmpty then pySplitAux cs []
      else acc.reverse :: pySplitAux cs []
    else pySplitAux cs (c :: acc)

/-- Python `s.split()` with no arguments: split on runs of whitespace,
producing no empty tokens. -/
def pySplit (l : List Char) : List (List Char) :=
  pySplitAux l []

/-- Python `s.split("\n")`: split at every newline, keeping empty pieces
(and producing `[""]` on the empty string). -/
def pySplitNl : List Char → List (List Char)
  | [] => [[]]
  | c :: cs =>
    if c = '\n' then [] :: pySplitNl cs
    else
      match pySplitNl cs with
      | [] => [[c]]
      | t :: ts => (c :: t) :: ts

/-- Embedding of the candidate-collection loop of `vienna.inverse_fold`
(`for line in lines: ...`).  `mfeOf s` stands for the energy component of
`RNA.fold_compound(s, md).mfe()`.  Blank lines are skipped; otherwise the
first whitespace token is taken as the sequence, appended if non-empty and
not yet seen, its score computed by folding it, and the loop breaks as
soon as `len(seqs) >= n_sol`. -/
def collectSeqs (mfeOf : List Char → ℚ) (n_sol : Nat) :
    List (List Char) → List (List Char) → List ℚ →
    List (List Char) × List ℚ
  | [], seqs, scores => (seqs, scores)
  | line :: rest, seqs, scores =>
    if (pyStrip line).isEmpty then
      collectSeqs mfeOf n_sol rest seqs scores
    else
      match pySplit (pyStrip line) with
      | [] => collectSeqs mfeOf n_sol rest seqs scores
      | seq :: _ =>
        if ¬ seq.isEmpty ∧ seq ∉ seqs then
          let seqs1 := seqs ++ [seq]
          let scores1 := scores ++ [mfeOf seq]
          if n_sol ≤ seqs1.length then (seqs1, scores1)
          else collectSeqs mfeOf n_sol rest seqs1 scores1
        else collectSeqs mfeOf n_sol rest seqs scores

/-- Embedding of `vienna.inverse_fold`.  Mirrors the source: fail with
`EngineNotFound` when RNAinverse is not on the PATH, run the subprocess
(a non-zero exit becomes `EngineExecutionFailed`), split stripped stdout
on newlines, run the collection loop, and zip sequences with scores into
an `InverseResults`. -/
def inverse_fold (e : Engine) (secstruct constraint : List Char)
    (n_sol : Nat) : Except ViennaError InverseResults :=
  if e.rnainverse_available = false then
    .error (.engineNotFound "RNAinverse command-line tool not available in PATH")
  else
    match e.run_rnainverse secstruct constraint n_sol with
    | .error stderr =>
      .error (.engineFailed ("RNAinverse failed: " ++ stderr))
    | .ok stdout =>
      let lines := pySplitNl (pyStrip stdout)
      let collected := collectSeqs (fun s => (e.mfe s).2) n_sol lines [] []
      .ok ⟨(collected.1.zip collected.2).map fun q => ⟨q.1, q.2⟩⟩

/-- Embedding of `vienna.folded_structure`: the `dot_bracket` of a plain
fold (with `bp_probs` left at its default `False`). -/
def folded_structure (e : Engine) (seq : List Char) :
    Except ViennaError (List Char) :=
  (fold e seq false).map FoldResults.dot_bracket

/-- Embedding of `vienna.does_sequence_fold_to`. -/
def does_sequence_fold_to (e : Engine) (seq target_structure : List Char) :
    Except ViennaError Bool :=
  (folded_structure e seq).map fun s => s = target_structure

/-! Concrete engines, used to exercise the wrapper on explicit inputs. -/

/-- Engine whose MFE structure is a run of dots one character shorter than
its input (matching the real engine's behaviour on a separator-carrying
cofold input), with a fixed energy, no partition-function statistic, a
zero probability matrix, and an RNAinverse that succeeds with the given
stdout. -/
def mkEngine (out : List Char) (energy : ℚ) : Engine where
  mfe := fun s => (List.replicate (s.length - 1) '.', energy)
  mean_bp_distance := fun _ => none
  bpp := fun _ _ _ => 0
  rnainverse_available := true
  run_rnainverse := fun _ _ _ => .ok out

/-- Engine with a single non-zero probability-matrix entry at the
0-indexed coordinates (0, 2), used to exercise the probability triples. -/
def probEngine : Engine where
  mfe := fun s => (List.replicate s.length '.', -1)
  mean_bp_distance := fun _ => some 2
  bpp := fun _ i j => if i = 0 ∧ j = 2 then 1 else 0
  rnainverse_available := true
  run_rnainverse := fun _ _ _ => .ok []

/-- Recogniser for the `InvalidInput` arm of a fold/cofold outcome. -/
def isInvalidInput : Except ViennaError FoldResults → Bool
  | .error (.invalidInput _) => true
  | _ => false

/-- Claim C7: the empty-string input to `fold` and to `cofold` is rejected
with the `InvalidInput` error irrespective of the engine oracle — hence
before any engine invocation — and no result is returned. -/
theorem C7_empty_input (e : Engine) (bp : Bool) :
    fold e [] bp = .error (.invalidInput "Must supply a sequence longer than 0") ∧
    cofold e [] = .error (.invalidInput "Must supply a sequence longer than 0") :=
  ⟨rfl, rfl⟩

/-- Claim C9: `fold` is deterministic.  Two invocations on the same
sequence and flag are modelled by two engine oracles that agree on that
sequence (the deterministic-engine assumption); the results then have
identical `dot_bracket` and identical `mfe`. -/
theorem C9_deterministic (e1 e2 : Engine) (seq : List Char) (bp : Bool)
    (hdet : e1.mfe seq = e2.mfe seq) (r1 r2 : FoldResults)
    (h1 : fold e1 seq bp = .ok r1) (h2 : fold e2 seq bp = .ok r2) :
    r1.dot_bracket = r2.dot_bracket ∧ r1.mfe = r2.mfe := by
  by_cases h0 : seq.length = 0
  · simp [fold, h0] at h1
  · simp [fold, h0] at h1 h2
    subst h1
    subst h2
    simp [hdet]

/-- Witness for C9 at a concrete engine and sequence. -/
theorem C9_deterministic_witness :
    (⟨"..".toList, 5, 0, []⟩ : FoldResults).dot_bracket =
      (⟨"..".toList, 5, 0, []⟩ : FoldResults).dot_bracket ∧
    (⟨"..".toList, 5, 0, []⟩ : FoldResults).mfe =
      (⟨"..".toList, 5, 0, []⟩ : FoldResults).mfe :=
  C9_deterministic (mkEngine [] 5) (mkEngine [] 5) "ACG".toList false rfl
    ⟨"..".toList, 5, 0, []⟩ ⟨"..".toList, 5, 0, []⟩ rfl rfl

/-- Claim C10: the `bp_probs` list of a returned `FoldResults` is empty
whenever `fold` is called with `bp_probs = false`, and `cofold` always
returns an empty `bp_probs` list. -/
theorem C10_bp_probs_empty (e : Engine) (seqf seqc : List Char)
    (r1 r2 : FoldResults)
    (h1 : fold e seqf false = .ok r1) (h2 : cofold e seqc = .ok r2) :
    r1.bp_probs = [] ∧ r2.bp_probs = [] := by
  constructor
  · by_cases h0 : seqf.length = 0
    · simp [fold, h0] at h1
    · simp [fold, h0] at h1
      subst h1
      rfl
  · by_cases h0 : seqc.length = 0
    · simp [cofold, h0] at h2
    · by_cases hamp : '&' ∈ seqc
      · simp [cofold, h0, hamp] at h2
        subst h2
        rfl
      · simp [cofold, h0, hamp] at h2

/-- Witness for C10 at a concrete engine and sequences. -/
theorem C10_bp_probs_empty_witness :
    (⟨"..".toList, 5, 0, []⟩ : FoldResults).bp_probs = [] ∧
    (⟨".&..".toList, 5, 0, []⟩ : FoldResults).bp_probs = [] :=
  C10_bp_probs_empty (mkEngine [] 5) "ACG".toList "A&CG".toList
    ⟨"..".toList, 5, 0, []⟩ ⟨".&..".toList, 5, 0, []⟩ rfl rfl

/-- Claim C8: ensemble-statistic extraction is fail-soft.  When the
engine cannot produce the statistic (the caught exception case, modelled
as `none`), `fold` and `cofold` still return a result whose
ensemble-statistic field is the default `0.0`. -/
theorem C8_fail_soft (e : Engine) (seq : List Char) (bp : Bool)
    (hnone : e.mean_bp_distance seq = none) :
    (seq ≠ [] → ∃ r, fold e seq bp = .ok r ∧ r.ens_defect = 0) ∧
    (seq ≠ [] → '&' ∈ seq → ∃ r, cofold e seq = .ok r ∧ r.ens_defect = 0) := by
  have hlen : seq ≠ [] → ¬ seq.length = 0 := by
    intro h
    simpa [List.length_eq_zero] using h
  constructor
  · intro hne
    simp only [fold, if_neg (hlen hne)]
    exact ⟨_, rfl, by simp [hnone]⟩
  · intro hne hamp
    simp only [cofold, if_neg (hlen hne)]
    rw [if_neg (by simp [hamp])]
    exact ⟨_, rfl, by simp [hnone]⟩

/-- Witness for C8 at a concrete engine and sequence. -/
theorem C8_fail_soft_witness :
    (∃ r, fold (mkEngine [] 5) "A&C".toList false = .ok r ∧
      r.ens_defect = 0) ∧
    (∃ r, cofold (mkEngine [] 5) "A&C".toList = .ok r ∧
      r.ens_defect = 0) :=
  ⟨(C8_fail_soft (mkEngine [] 5) "A&C".toList false rfl).1 (by decide),
   (C8_fail_soft (mkEngine [] 5) "A&C".toList false rfl).2 (by decide)
     (by decide)⟩

/-- Claim C2 (amended): `cofold` rejects its input with `InvalidInput`
exactly when the input is empty or contains no `'&'` separator; an input
with more than one separator is not rejected. -/
theorem C2_invalid_iff (e : Engine) (seq : List Char) :
    isInvalidInput (cofold e seq) = true ↔ (seq = [] ∨ '&' ∉ seq) := by
  by_cases h0 : seq.length = 0
  · have : seq = [] := List.length_eq_zero.mp h0
    subst this
    simp [cofold, isInvalidInput]
  · by_cases hamp : '&' ∈ seq
    · simp only [cofold, if_neg h0]
      rw [if_neg (by simp [hamp])]
      simp only [isInvalidInput]
      constructor
      · intro h
        exact absurd h (by simp)
      · intro h
        rcases h with h | h
        · exact absurd (congrArg List.length h) (by simpa using h0)
        · exact absurd hamp h
    · simp only [cofold, if_neg h0]
      rw [if_pos (by simp [hamp])]
      simp only [isInvalidInput, true_iff]
      exact Or.inr hamp

/-- Witness for C2's amended statement at a concrete input. -/
theorem C2_invalid_iff_witness :
    isInvalidInput (cofold (mkEngine [] 0) "ACGU".toList) = true :=
  (C2_invalid_iff (mkEngine [] 0) "ACGU".toList).mpr (Or.inr (by decide))

/-- Counterexample to claim C2 as stated: the input `"A&B&C"` contains two
separator characters, yet `cofold` accepts it and returns a result rather
than raising `InvalidInput`. -/
theorem C2_counterexample :
    "A&B&C".toList.count '&' = 2 ∧
    cofold (mkEngine [] 0) "A&B&C".toList =
      .ok ⟨".&...".toList, 0, 0, []⟩ :=
  ⟨by decide, rfl⟩

/-! Machinery for reasoning about the candidate-collection loop. -/

/-- First whitespace-delimited token of a line, if any (`parts[0]` after
`line.strip().split()`). -/
def firstToken? (line : List Char) : Option (List Char) :=
  (pySplit (pyStrip line)).head?

/-- Deduplication keeping first occurrences, relative to a list of
already-seen sequences. -/
def dedupFrom (seen : List (List Char)) : List (List Char) → List (List Char)
  | [] => []
  | t :: ts =>
    if t ∈ seen then dedupFrom seen ts
    else t :: dedupFrom (seen ++ [t]) ts

/-- Tokens produced by the whitespace splitter are never empty. -/
theorem pySplitAux_ne_nil (l : List Char) :
    ∀ (acc : List Char), ∀ t ∈ pySplitAux l acc, t ≠ [] := by
  induction l with
  | nil =>
    intro acc t ht
    by_cases hacc : acc.isEmpty
    · simp [pySplitAux, hacc] at ht
    · simp only [pySplitAux, hacc, Bool.false_eq_true, if_false,
        List.mem_singleton] at ht
      subst ht
      simp only [ne_eq, List.reverse_eq_nil_iff]
      simpa using hacc
  | cons c cs ih =>
    intro acc t ht
    by_cases hsp : pyIsSpace c
    · by_cases hacc : acc.isEmpty
      · simp only [pySplitAux, hsp, if_true, hacc] at ht
        exact ih [] t ht
      · simp only [pySplitAux, hsp, if_true, hacc, Bool.false_eq_true,
          if_false, List.mem_cons] at ht
        rcases ht with ht | ht
        · subst ht
          simp only [ne_eq, List.reverse_eq_nil_iff]
          simpa using hacc
        · exact ih [] t ht
    · simp only [pySplitAux, hsp, Bool.false_eq_true, if_false] at ht
      exact ih (c :: acc) t ht

/-- Tokens of `pySplit` are never the empty string. -/
theorem mem_pySplit_ne_nil {l t : List Char} (h : t ∈ pySplit l) : t ≠ [] :=
  pySplitAux_ne_nil l [] t h

/-- Elements kept by `dedupFrom` were not seen before. -/
theorem mem_dedupFrom_not_seen (l : List (List Char)) :
    ∀ (seen : List (List Char)) (t : List Char),
      t ∈ dedupFrom seen l → t ∉ seen := by
  induction l with
  | nil => intro seen t ht; simp [dedupFrom] at ht
  | cons a as ih =>
    intro seen t ht
    by_cases ha : a ∈ seen
    · rw [dedupFrom, if_pos ha] at ht
      exact ih seen t ht
    · rw [dedupFrom, if_neg ha] at ht
      rcases List.mem_cons.mp ht with rfl | ht
      · exact ha
      · intro hmem
        exact ih (seen ++ [a]) t ht (by simp [hmem])

/-- The output of `dedupFrom` has no duplicates. -/
theorem dedupFrom_nodup (l : List (List Char)) :
    ∀ seen, (dedupFrom seen l).Nodup := by
  induction l with
  | nil => intro seen; simp [dedupFrom]
  | cons a as ih =>
    intro seen
    by_cases ha : a ∈ seen
    · rw [dedupFrom, if_pos ha]
      exact ih seen
    · rw [dedupFrom, if_neg ha]
      refine List.nodup_cons.mpr ⟨?_, ih _⟩
      intro hmem
      exact mem_dedupFrom_not_seen as _ a hmem (by simp)

/-- Deduplication distributes over append, threading the seen set. -/
theorem dedupFrom_append (a : List (List Char)) :
    ∀ (seen b : List (List Char)),
      dedupFrom seen (a ++ b) =
        dedupFrom seen a ++ dedupFrom (seen ++ dedupFrom seen a) b := by
  induction a with
  | nil => intro seen b; simp [dedupFrom]
  | cons x xs ih =>
    intro seen b
    by_cases hx : x ∈ seen
    · rw [List.cons_append, dedupFrom, if_pos hx, dedupFrom, if_pos hx, ih]
    · rw [List.cons_append, dedupFrom, if_neg hx, dedupFrom, if_neg hx, ih]
      simp [List.append_assoc]

/-- Characterisation of the collection loop: starting from a seen list
shorter than `max n_sol 1` and its folded scores, the loop appends the
first-occurrence deduplication of the lines' first tokens, truncated so
that the total never passes `max n_sol 1`, and scores every collected
sequence by folding it.  The bound is `max n_sol 1` and not `n_sol`
because the loop checks `len(seqs) >= n_sol` only after appending. -/
theorem collectSeqs_spec (mfeOf : List Char → ℚ) (n_sol : Nat)
    (lines : List (List Char)) :
    ∀ seqs : List (List Char), seqs.length < max n_sol 1 →
      collectSeqs mfeOf n_sol lines seqs (seqs.map mfeOf) =
        (seqs ++ (dedupFrom seqs (lines.filterMap firstToken?)).take
            (max n_sol 1 - seqs.length),
         (seqs ++ (dedupFrom seqs (lines.filterMap firstToken?)).take
            (max n_sol 1 - seqs.length)).map mfeOf) := by
  induction lines with
  | nil => intro seqs h; simp [collectSeqs, dedupFrom]
  | cons line rest ih =>
    intro seqs h
    by_cases hstrip : (pyStrip line).isEmpty
    · have hft : firstToken? line = none := by
        have hnil : pyStrip line = [] := by simpa using hstrip
        simp [firstToken?, hnil, pySplit, pySplitAux]
      rw [collectSeqs, if_pos hstrip, List.filterMap_cons_none hft]
      exact ih seqs h
    · cases hsp : pySplit (pyStrip line) with
      | nil =>
        have hft : firstToken? line = none := by simp [firstToken?, hsp]
        have hred : collectSeqs mfeOf n_sol (line :: rest) seqs (seqs.map mfeOf) =
            collectSeqs mfeOf n_sol rest seqs (seqs.map mfeOf) := by
          rw [collectSeqs, if_neg hstrip, hsp]
        rw [hred, List.filterMap_cons_none hft]
        exact ih seqs h
      | cons tok tail =>
        have htokne : ¬ tok.isEmpty := by
          have hmem : tok ∈ pySplit (pyStrip line) := by simp [hsp]
          simpa using mem_pySplit_ne_nil hmem
        have hft : firstToken? line = some tok := by simp [firstToken?, hsp]
        have hred : collectSeqs mfeOf n_sol (line :: rest) seqs (seqs.map mfeOf) =
            (if ¬ tok.isEmpty ∧ tok ∉ seqs then
              (if n_sol ≤ (seqs ++ [tok]).length then
                (seqs ++ [tok], seqs.map mfeOf ++ [mfeOf tok])
               else collectSeqs mfeOf n_sol rest (seqs ++ [tok])
                 (seqs.map mfeOf ++ [mfeOf tok]))
             else collectSeqs mfeOf n_sol rest seqs (seqs.map mfeOf)) := by
          rw [collectSeqs, if_neg hstrip, hsp]
        rw [hred, List.filterMap_cons_some hft]
        by_cases hmemtok : tok ∈ seqs
        · rw [if_neg (by simp [hmemtok]), dedupFrom, if_pos hmemtok]
          exact ih seqs h
        · rw [if_pos ⟨htokne, hmemtok⟩, dedupFrom, if_neg hmemtok]
          have hmap : seqs.map mfeOf ++ [mfeOf tok] =
              (seqs ++ [tok]).map mfeOf := by simp
          have hsub : max n_sol 1 - seqs.length =
              (max n_sol 1 - (seqs.length + 1)) + 1 := by omega
          rw [hsub, List.take_succ_cons]
          by_cases hbrk : n_sol ≤ (seqs ++ [tok]).length
          · have hmax : max n_sol 1 = seqs.length + 1 := by
              refine le_antisymm (Nat.max_le.mpr ⟨?_, ?_⟩) h
              · simpa using hbrk
              · omega
            rw [if_pos hbrk]
            have hz : max n_sol 1 - (seqs.length + 1) = 0 := by omega
            rw [hz, List.take_zero]
            simp
          · rw [if_neg hbrk]
            have hlt : (seqs ++ [tok]).length < max n_sol 1 := by
              simp only [List.length_append, List.length_singleton]
              simp only [List.length_append, List.length_singleton] at hbrk
              omega
            rw [hmap, ih (seqs ++ [tok]) hlt]
            simp [List.append_assoc, List.length_append]

/-- Top-level corollary of `collectSeqs_spec`: the loop started empty
returns the deduplicated first tokens truncated at `max n_sol 1`, each
scored by folding. -/
theorem collectSeqs_eq (mfeOf : List Char → ℚ) (n_sol : Nat)
    (lines : List (List Char)) :
    collectSeqs mfeOf n_sol lines [] [] =
      ((dedupFrom [] (lines.filterMap firstToken?)).take (max n_sol 1),
       ((dedupFrom [] (lines.filterMap firstToken?)).take
          (max n_sol 1)).map mfeOf) := by
  have h0 : ([] : List (List Char)).length < max n_sol 1 := by
    simp only [List.length_nil]
    omega
  simpa using collectSeqs_spec mfeOf n_sol lines [] h0

/-- Length of the zipped result list built by `inverse_fold` from a
sequence list and its pointwise scores. -/
theorem zip_map_self_length (s : List (List Char)) (f : List Char → ℚ) :
    (((s.zip (s.map f)).map fun q => SeqScore.mk q.1 q.2).length) = s.length := by
  simp

/-- First components of the zipped result list are the sequences. -/
theorem zip_map_self_seqs (s : List (List Char)) (f : List Char → ℚ) :
    ((s.zip (s.map f)).map fun q => SeqScore.mk q.1 q.2).map SeqScore.seq
      = s := by
  induction s with
  | nil => simp
  | cons a as ih => simpa using ih

/-- Every entry of the zipped result list is scored by `f` at its own
sequence. -/
theorem mem_zip_map_score (s : List (List Char)) (f : List Char → ℚ)
    (p : SeqScore)
    (hp : p ∈ (s.zip (s.map f)).map fun q => SeqScore.mk q.1 q.2) :
    p.score = f p.seq := by
  induction s with
  | nil => simp at hp
  | cons a as ih =>
    simp only [List.map_cons, List.zip_cons_cons, List.mem_cons] at hp
    rcases hp with rfl | hp
    · rfl
    · exact ih hp

/-- Claim C3 (amended): when collecting candidates from the engine's
line-oriented output, a line contributes nothing exactly when it has no
whitespace-delimited token (blank and all-whitespace lines); every other
line — whether it has one, two or more fields — contributes its first
token, subject to first-occurrence deduplication and the collection cap,
each collected sequence being scored by folding it. -/
theorem C3_line_contribution (mfeOf : List Char → ℚ) (n_sol : Nat)
    (lines : List (List Char)) :
    collectSeqs mfeOf n_sol lines [] [] =
      ((dedupFrom [] (lines.filterMap firstToken?)).take (max n_sol 1),
       ((dedupFrom [] (lines.filterMap firstToken?)).take
          (max n_sol 1)).map mfeOf) ∧
    ∀ line : List Char, pyStrip line = [] → firstToken? line = none := by
  refine ⟨collectSeqs_eq mfeOf n_sol lines, ?_⟩
  intro line hline
  simp [firstToken?, hline, pySplit, pySplitAux]

/-- Witness for C3's amended statement at a concrete pair of lines: a
two-field candidate line followed by an all-whitespace line. -/
theorem C3_line_contribution_witness :
    collectSeqs (fun _ => 0) 100 ["GGGG 5".toList, "  ".toList] [] [] =
      ((dedupFrom [] (["GGGG 5".toList, "  ".toList].filterMap
          firstToken?)).take (max 100 1),
       ((dedupFrom [] (["GGGG 5".toList, "  ".toList].filterMap
          firstToken?)).take (max 100 1)).map (fun _ => 0)) ∧
    ∀ line : List Char, pyStrip line = [] → firstToken? line = none :=
  C3_line_contribution (fun _ => 0) 100 ["GGGG 5".toList, "  ".toList]

/-- Counterexample to claim C3 as stated: the line `"GGGG"` tokenizes
into exactly one field, not two, yet it is not skipped — it contributes a
candidate to the result. -/
theorem C3_counterexample :
    pySplit (pyStrip "GGGG".toList) = ["GGGG".toList] ∧
    inverse_fold (mkEngine "GGGG".toList (-2)) [] [] 100 =
      .ok ⟨[⟨"GGGG".toList, -2⟩]⟩ :=
  ⟨by decide, by decide⟩

/-- Claim C4 (amended): for a requested solution count of at least one,
the returned `InverseResults` never exceeds the requested count and never
repeats a sequence, and collection stops once the requested count is
reached: output lines beyond those that filled the quota cannot change
the collected sequences or scores. -/
theorem C4_cap_nodup_stop (e : Engine) (secstruct constraint : List Char)
    (n_sol : Nat) (hn : 1 ≤ n_sol) :
    (∀ r, inverse_fold e secstruct constraint n_sol = .ok r →
      r.seq_scores.length ≤ n_sol ∧
      (r.seq_scores.map SeqScore.seq).Nodup) ∧
    (∀ (mfeOf : List Char → ℚ) (l1 l2 : List (List Char)),
      n_sol ≤ (collectSeqs mfeOf n_sol l1 [] []).1.length →
      collectSeqs mfeOf n_sol (l1 ++ l2) [] [] =
        collectSeqs mfeOf n_sol l1 [] []) := by
  have hmax : max n_sol 1 = n_sol := Nat.max_eq_left hn
  constructor
  · intro r hr
    unfold inverse_fold at hr
    split at hr
    · exact absurd hr (by simp)
    · cases hrun : e.run_rnainverse secstruct constraint n_sol with
      | error s => simp [hrun] at hr
      | ok stdout =>
        simp only [hrun, Except.ok.injEq] at hr
        subst hr
        rw [collectSeqs_eq]
        constructor
        · rw [zip_map_self_length]
          calc (List.take (max n_sol 1) _).length ≤ max n_sol 1 :=
                List.length_take_le _ _
            _ = n_sol := hmax
        · rw [zip_map_self_seqs]
          exact (List.take_sublist _ _).nodup (dedupFrom_nodup _ [])
  · intro mfeOf l1 l2 hfull
    rw [collectSeqs_eq] at hfull ⊢
    rw [collectSeqs_eq]
    simp only at hfull
    have hd1 : n_sol ≤ (dedupFrom []
        (l1.filterMap firstToken?)).length := by
      have := List.length_take (max n_sol 1)
        (dedupFrom [] (l1.filterMap firstToken?))
      rw [hmax] at hfull this
      omega
    rw [List.filterMap_append, dedupFrom_append, hmax,
      List.take_append_eq_append_take,
      Nat.sub_eq_zero_of_le hd1, List.take_zero, List.append_nil]

/-- Witness for C4's amended statement at a concrete engine whose output
holds two candidate lines while only one solution is requested: the
returned result keeps one entry and no duplicate. -/
theorem C4_cap_nodup_stop_witness :
    (⟨[⟨"ACGU".toList, 0⟩]⟩ : InverseResults).seq_scores.length ≤ 1 ∧
    ((⟨[⟨"ACGU".toList, 0⟩]⟩ :
        InverseResults).seq_scores.map SeqScore.seq).Nodup :=
  (C4_cap_nodup_stop (mkEngine "ACGU 2\nGGGG 3".toList 0) [] [] 1
      (by decide)).1 ⟨[⟨"ACGU".toList, 0⟩]⟩ (by decide)

/-- Counterexample to claim C4 as stated: with requested solution count
`0`, the loop appends a candidate before checking the cap, so the result
holds one entry — more than the requested count. -/
theorem C4_counterexample :
    inverse_fold (mkEngine "ACGU 2\nGGGG 3".toList 0) [] [] 0 =
      .ok ⟨[⟨"ACGU".toList, 0⟩]⟩ ∧ ¬ (1 ≤ 0) :=
  ⟨by decide, by decide⟩

/-- Claim C1 (amended): the score stored for every accepted candidate is
the minimum free energy obtained by folding that candidate with the
engine; the line's second whitespace token is never parsed as the score,
and a non-numeric score token on a two-field line raises no error —
whenever RNAinverse is found and its process exits successfully,
`inverse_fold` returns a result. -/
theorem C1_score_from_fold (e : Engine) (secstruct constraint : List Char)
    (n_sol : Nat) (hav : e.rnainverse_available = true) :
    (∀ stdout, e.run_rnainverse secstruct constraint n_sol = .ok stdout →
      ∃ r, inverse_fold e secstruct constraint n_sol = .ok r) ∧
    (∀ r, inverse_fold e secstruct constraint n_sol = .ok r →
      ∀ p ∈ r.seq_scores, p.score = (e.mfe p.seq).2) := by
  constructor
  · intro stdout hrun
    refine ⟨⟨((collectSeqs (fun s => (e.mfe s).2) n_sol
          (pySplitNl (pyStrip stdout)) [] []).1.zip
        (collectSeqs (fun s => (e.mfe s).2) n_sol
          (pySplitNl (pyStrip stdout)) [] []).2).map fun q => ⟨q.1, q.2⟩⟩, ?_⟩
    unfold inverse_fold
    rw [if_neg (by simp [hav]), hrun]
  · intro r hr p hp
    unfold inverse_fold at hr
    split at hr
    · exact absurd hr (by simp)
    · cases hrun : e.run_rnainverse secstruct constraint n_sol with
      | error s => simp [hrun] at hr
      | ok stdout =>
        simp only [hrun, Except.ok.injEq] at hr
        subst hr
        rw [collectSeqs_eq] at hp
        exact mem_zip_map_score _ _ p hp

/-- Witness for C1's amended statement at a concrete engine: the stored
score of the accepted candidate `"AAAA"` is the engine's fold energy for
`"AAAA"`, not the line's token `7`. -/
theorem C1_score_from_fold_witness :
    (⟨"AAAA".toList, -4⟩ : SeqScore).score =
      ((mkEngine "AAAA 7".toList (-4)).mfe
        (⟨"AAAA".toList, -4⟩ : SeqScore).seq).2 :=
  (C1_score_from_fold (mkEngine "AAAA 7".toList (-4)) [] [] 100 rfl).2
    ⟨[⟨"AAAA".toList, -4⟩]⟩ (by decide) ⟨"AAAA".toList, -4⟩ (by decide)

/-- Counterexample to claim C1 as stated: on the well-formed two-field
line `"GGGG 5.0"`, the accepted candidate's stored score is `-3` — the
energy the engine assigns when folding `"GGGG"` — not the parsed token
value `5.0`; and on the two-field line `"GGGG xy"`, whose score token is
non-numeric, no `ParseError` is raised: a result is returned all the
same. -/
theorem C1_counterexample :
    (pySplit (pyStrip "GGGG 5.0".toList) = ["GGGG".toList, "5.0".toList] ∧
     inverse_fold (mkEngine "GGGG 5.0".toList (-3)) [] [] 100 =
       .ok ⟨[⟨"GGGG".toList, -3⟩]⟩ ∧ (-3 : ℚ) ≠ 5) ∧
    (pySplit (pyStrip "GGGG xy".toList) = ["GGGG".toList, "xy".toList] ∧
     inverse_fold (mkEngine "GGGG xy".toList (-3)) [] [] 100 =
       .ok ⟨[⟨"GGGG".toList, -3⟩]⟩) :=
  ⟨⟨by decide, by decide, by decide⟩, by decide, by decide⟩

/-- Claim C5: with probabilities requested on a sequence of length `n`,
and under the engine contract that probability-matrix entries are at most
1, every triple `(i, j, p)` in the returned `bp_probs` satisfies
`1 ≤ i < j ≤ n` and `0 < p ≤ 1` (the coordinates being the 0-indexed
matrix coordinates plus one), and matrix entries that are exactly zero
are omitted: no triple carries the coordinates of a zero entry. -/
theorem C5_bp_probs_bounds (e : Engine) (seq : List Char) (r : FoldResults)
    (hr : fold e seq true = .ok r)
    (hm : ∀ i j, e.bpp seq i j ≤ 1) :
    (∀ x ∈ r.bp_probs,
      1 ≤ x.1 ∧ x.1 < x.2.1 ∧ x.2.1 ≤ seq.length ∧
        0 < x.2.2 ∧ x.2.2 ≤ 1) ∧
    (∀ i j, e.bpp seq i j = 0 →
      ∀ q : ℚ, (i + 1, j + 1, q) ∉ r.bp_probs) := by
  by_cases h0 : seq.length = 0
  · simp [fold, h0] at hr
  · simp [fold, h0] at hr
    subst hr
    constructor
    · intro x hx
      simp only [List.mem_flatMap, List.mem_filterMap, List.mem_range,
        List.mem_range'] at hx
      obtain ⟨i, hi, j, ⟨k, hk, hj⟩, hx⟩ := hx
      by_cases hpos : 0 < e.bpp seq i j
      · rw [if_pos hpos] at hx
        obtain rfl := Option.some.inj hx
        refine ⟨?_, ?_, ?_, hpos, hm i j⟩ <;> · dsimp only; omega
      · rw [if_neg hpos] at hx
        exact absurd hx (by simp)
    · intro i j hz q hmem
      simp only [List.mem_flatMap, List.mem_filterMap, List.mem_range,
        List.mem_range'] at hmem
      obtain ⟨i', hi', j', ⟨k, hk, hj'⟩, hx⟩ := hmem
      by_cases hpos : 0 < e.bpp seq i' j'
      · rw [if_pos hpos] at hx
        have heq := Option.some.inj hx
        simp only [Prod.mk.injEq] at heq
        obtain ⟨hii, hjj, hqq⟩ := heq
        have hi2 : i' = i := by omega
        have hj2 : j' = j := by omega
        rw [hi2, hj2] at hpos
        exact hpos.ne' hz
      · rw [if_neg hpos] at hx
        exact absurd hx (by simp)

/-- Witness for C5 at a concrete engine whose probability matrix has one
positive entry, on a sequence of length three. -/
theorem C5_bp_probs_bounds_witness :
    (∀ x ∈ (⟨"...".toList, -1, 2, [(1, 3, 1)]⟩ : FoldResults).bp_probs,
      1 ≤ x.1 ∧ x.1 < x.2.1 ∧ x.2.1 ≤ "ACG".toList.length ∧
        0 < x.2.2 ∧ x.2.2 ≤ 1) ∧
    (∀ i j, probEngine.bpp "ACG".toList i j = 0 →
      ∀ q : ℚ, (i + 1, j + 1, q) ∉
        (⟨"...".toList, -1, 2, [(1, 3, 1)]⟩ : FoldResults).bp_probs) :=
  C5_bp_probs_bounds probEngine "ACG".toList
    ⟨"...".toList, -1, 2, [(1, 3, 1)]⟩ (by decide)
    (fun i j => by dsimp only [probEngine]; split <;> decide)

/-- Claim C6: for a cofold input `s1 ++ "&" ++ s2`, with `s1` the part
before the first separator (so `'&' ∉ s1`), and under the engine contract
that the raw combined structure has one character per non-separator input
character, the returned `dot_bracket` carries `'&'` at index `s1.length`,
and deleting that character yields exactly the engine's raw combined
structure. -/
theorem C6_separator_reinserted (e : Engine) (s1 s2 : List Char)
    (r : FoldResults) (hamp : '&' ∉ s1)
    (hlen : (e.mfe (s1 ++ '&' :: s2)).1.length = s1.length + s2.length)
    (hr : cofold e (s1 ++ '&' :: s2) = .ok r) :
    r.dot_bracket[s1.length]? = some '&' ∧
    r.dot_bracket.take s1.length ++ r.dot_bracket.drop (s1.length + 1) =
      (e.mfe (s1 ++ '&' :: s2)).1 := by
  have h0 : ¬ (s1 ++ '&' :: s2).length = 0 := by simp
  have hmem : '&' ∈ s1 ++ '&' :: s2 := by simp
  have htw : (s1 ++ '&' :: s2).takeWhile (fun c => c ≠ '&') = s1 := by
    have hpos : ∀ a ∈ s1, (fun c => decide (c ≠ '&')) a = true := by
      intro a ha
      simp only [decide_eq_true_eq]
      intro hc
      exact hamp (hc ▸ ha)
    rw [List.takeWhile_append_of_pos hpos,
      List.takeWhile_cons_of_neg (by simp)]
    simp
  rw [cofold, if_neg h0] at hr
  rw [if_neg (by simp [hmem])] at hr
  simp only [htw, Except.ok.injEq] at hr
  subst hr
  set raw := (e.mfe (s1 ++ '&' :: s2)).1 with hraw
  have htlen : (raw.take s1.length).length = s1.length := by
    rw [List.length_take]
    omega
  constructor
  · rw [List.getElem?_append_right (by omega)]
    rw [htlen, Nat.sub_self]
    simp
  · rw [List.take_left' htlen]
    rw [List.append_cons]
    rw [List.drop_left' (by simp [htlen])]
    exact List.take_append_drop _ _

/-- Witness for C6 at a concrete engine and the spec's own cofold
example input `"GGGG&AAACCCC"`. -/
theorem C6_separator_reinserted_witness :
    (⟨"....&.......".toList, 5, 0, []⟩ :
        FoldResults).dot_bracket["GGGG".toList.length]? = some '&' ∧
    (⟨"....&.......".toList, 5, 0, []⟩ :
        FoldResults).dot_bracket.take "GGGG".toList.length ++
      (⟨"....&.......".toList, 5, 0, []⟩ :
        FoldResults).dot_bracket.drop ("GGGG".toList.length + 1) =
      ((mkEngine [] 5).mfe ("GGGG".toList ++ '&' :: "AAACCCC".toList)).1 :=
  C6_separator_reinserted (mkEngine [] 5) "GGGG".toList "AAACCCC".toList
    ⟨"....&.......".toList, 5, 0, []⟩ (by decide) (by decide) (by decide)

end Vienna
